import Mathlib

/-!
Verification development for the Roo MCP installer core
(`roo.py`, `config_loader.py`).

The Python source is shallowly embedded as executable Lean definitions:

* strings are modelled as `List Char` where character-level scanning
  matters (repository-reference parsing) and as `String` elsewhere;
* JSON values (as produced by `json.loads`) are the inductive `JValue`,
  with Python `dict`s as insertion-ordered association lists and JSON
  numbers abstracted to `Int`;
* filesystem and subprocess outcomes are explicit parameters, so the
  installation pipeline becomes a pure function of those outcomes.
-/

/-- Characters stripped by Python's `str.strip()` (ASCII whitespace). -/
def pySpace (c : Char) : Bool :=
  c == ' ' || c == '\t' || c == '\n' || c == '\r' || c == '\x0b' || c == '\x0c'

/-- Python `s.strip()` on a character list. -/
def stripL (l : List Char) : List Char :=
  ((l.dropWhile pySpace).reverse.dropWhile pySpace).reverse

/-- Python `s.strip('/')` on a character list. -/
def stripSlashes (l : List Char) : List Char :=
  ((l.dropWhile (· == '/')).reverse.dropWhile (· == '/')).reverse

/-- Python `s.split(sep)` (full split; `"".split(sep) == [""]`). -/
def splitOnChar (sep : Char) : List Char → List (List Char)
  | [] => [[]]
  | c :: cs =>
      if c = sep then [] :: splitOnChar sep cs
      else
        match splitOnChar sep cs with
        | [] => [[c]]
        | h :: t => (c :: h) :: t

/-- Python `s.startswith(pat)`: first argument is the pattern. -/
def startsWithL : List Char → List Char → Bool
  | [], _ => true
  | _ :: _, [] => false
  | p :: ps, c :: cs => p == c && startsWithL ps cs

/-- Substring test (`pat in s` in Python). -/
def containsSub (pat : List Char) : List Char → Bool
  | [] => pat.isEmpty
  | c :: cs => startsWithL pat (c :: cs) || containsSub pat cs

/-- The pattern removed by `.replace('.git', '')`. -/
def dotGit : List Char := ['.', 'g', 'i', 't']

/-- Python `s.replace('.git', '')`: removes every (left-to-right,
non-overlapping) occurrence of `.git`. -/
def removeDotGit : List Char → List Char
  | [] => []
  | '.' :: 'g' :: 'i' :: 't' :: rest => removeDotGit rest
  | c :: cs => c :: removeDotGit cs

/-- Step 2 of `parse_repo_input` (roo.py lines 745-753): split a trailing
`:subdir` off the (already stripped) input, but only when the first colon
of the input is at a positive index and the character right before it is
neither `p` nor `s`. -/
def subdirSplit (ri : List Char) : List Char × List Char :=
  match ri.findIdx? (· == ':') with
  | some i =>
      if 0 < i ∧ ri.getD (i - 1) ' ' ≠ 'p' ∧ ri.getD (i - 1) ' ' ≠ 's' then
        (ri.take i, ri.drop (i + 1))
      else (ri, [])
  | none => (ri, [])

/-- Strip a leading `http://` or `https://` scheme, as `urllib.parse.urlparse`
does for the two schemes `parse_repo_input` accepts. -/
def schemeSplit (s : List Char) : Option (List Char) :=
  if startsWithL "http://".toList s then some (s.drop 7)
  else if startsWithL "https://".toList s then some (s.drop 8)
  else none

/-- The `(netloc, path)` result of `urllib.parse.urlparse`, including its
`ValueError` paths (`none`). CPython raises `Invalid IPv6 URL` for a netloc
with unbalanced brackets, and (3.11+, which this tool needs for `tomllib`)
rejects bracketed hosts that are not valid IPv6/IPvFuture addresses via the
`ipaddress` module. The embedding abstracts the whole bracketed-host class
as raising — a valid IPv6 literal host would actually parse in CPython, but
no claim here concerns one, and every success theorem is stated only where
this model returns `some`. -/
def urlparseL (s : List Char) : Option (List Char × List Char) :=
  match schemeSplit s with
  | some rest =>
      let netloc := rest.takeWhile (fun c => !(c == '/' || c == '?' || c == '#'))
      let path := (rest.dropWhile (fun c => !(c == '/' || c == '?' || c == '#'))).takeWhile
        (fun c => !(c == '?' || c == '#'))
      if netloc.contains '[' || netloc.contains ']' then none
      else some (netloc, path)
  | none => some ([], s.takeWhile (fun c => !(c == '?' || c == '#')))

/-- Host against which GitHub URLs are recognised. -/
def githubHost : List Char := "github.com".toList

/-- Embedding of `parse_repo_input` (roo.py lines 709-803). Returns
`(git_url, repo_name, subdir)` or the raised `ValueError` message. The two
branch-local `try`/`except` handlers re-wrap inner errors, so URL-branch
messages carry the `Invalid Git URL: ` prefix and shorthand-branch messages
the `Failed to parse owner/repo format: ` prefix; the message of the
abstracted bracketed-host rejection is the unbalanced-bracket one. -/
def parse_repo_input (input : List Char) : Except String (List Char × List Char × List Char) :=
  let ri := stripL input
  if ri.isEmpty then .error "Repository input cannot be empty"
  else
    let rp := subdirSplit ri
    let repoPart := rp.1
    let subdir := rp.2
    if startsWithL "http://".toList repoPart || startsWithL "https://".toList repoPart then
      let urlToParse := if subdir.isEmpty then ri else repoPart
      match urlparseL urlToParse with
      | none => .error "Invalid Git URL: Invalid IPv6 URL"
      | some (netloc, path) =>
          let pathParts := splitOnChar '/' (stripSlashes path)
          if netloc = githubHost then
            match pathParts with
            | owner :: repo :: _ =>
                .ok ("https://github.com/".toList ++ owner ++ '/' :: removeDotGit repo ++
                      ".git".toList, removeDotGit repo, subdir)
            | _ => .error "Invalid Git URL: Invalid GitHub URL path structure (expected owner/repo)"
          else
            match pathParts.getLast? with
            | some last => .ok (urlToParse, removeDotGit last, subdir)
            | none =>
                .error ("Invalid Git URL: Invalid Git URL - cannot determine repository name from path: "
                  ++ String.mk path)
    else if repoPart.contains '/' then
      let owner := stripL (repoPart.takeWhile (fun c => !(c == '/')))
      let repo := removeDotGit (stripL ((repoPart.dropWhile (fun c => !(c == '/'))).drop 1))
      if !owner.isEmpty && !repo.isEmpty then
        .ok ("https://github.com/".toList ++ owner ++ '/' :: repo ++ ".git".toList, repo, subdir)
      else .error "Failed to parse owner/repo format: Invalid owner/repo format - empty owner or repo name"
    else
      .error "Invalid repository input format - must be URL (https://...) or owner/repo"

/-! ## JSON values and Python dictionaries -/

/-- JSON values as produced by `json.loads`. Python `dict`s are
insertion-ordered association lists; JSON numbers are abstracted to `Int`. -/
inductive JValue where
  | null
  | bool (b : Bool)
  | num (n : Int)
  | str (s : String)
  | arr (xs : List JValue)
  | obj (fields : List (String × JValue))

/-- Association lists standing for Python dictionaries. -/
abbrev JDict := List (String × JValue)

/-- Python `d[k]` / `d.get(k)`: first binding of `k`. -/
def lookupD (d : JDict) (k : String) : Option JValue :=
  match d with
  | [] => none
  | (k', v) :: rest => if k' = k then some v else lookupD rest k

/-- Python `d[k] = v`: replace the binding in place when `k` is present
(keeping its position — keys of a Python dict are unique, so replacing the
first binding is assignment), append otherwise. -/
def setKey (d : JDict) (k : String) (v : JValue) : JDict :=
  match d with
  | [] => [(k, v)]
  | (k', v') :: rest => if k' = k then (k, v) :: rest else (k', v') :: setKey rest k v

/-- Python `a.update(b)`: fold `setKey` over `b` in order. -/
def dictUpdate (a b : JDict) : JDict :=
  b.foldl (fun acc p => setKey acc p.1 p.2) a

/-- Python `del d[k]`. -/
def delKey (d : JDict) (k : String) : JDict :=
  d.filter (fun p => p.1 ≠ k)

/-- Whether a value is a Python `dict` (`isinstance(v, dict)`). -/
def isObjV : JValue → Bool
  | .obj _ => true
  | _ => false

/-! ## Registry file reading and writing (`read_settings` / `write_settings`) -/

/-- What the settings file can hold when `read_settings` opens it: absent,
whitespace-only, undecodable JSON, or a decoded JSON value. The fidelity of
`json.dump`/`json.loads` themselves (Python stdlib) is assumed, so a
successfully written file holds the written value. -/
inductive FileContent where
  | missing
  | empty
  | malformed
  | json (v : JValue)

/-- The default configuration `{"mcpServers": {}}`. -/
def emptyRegistry : JValue := .obj [("mcpServers", .obj [])]

/-- Embedding of `read_settings` (roo.py lines 151-182): missing, empty or
malformed files and non-object top levels yield the default; otherwise
`mcpServers` is coerced to `{}` when absent or not an object, a legacy
`servers` key is only logged, and the object is returned. Every error path
is caught in the source, so the embedding is total. -/
def read_settings (fc : FileContent) : JValue :=
  match fc with
  | .missing => emptyRegistry
  | .empty => emptyRegistry
  | .malformed => emptyRegistry
  | .json data =>
      match data with
      | .obj fields =>
          match lookupD fields "mcpServers" with
          | some (.obj _) => .obj fields
          | _ => .obj (setKey fields "mcpServers" (.obj []))
      | _ => emptyRegistry

/-- Embedding of `write_settings` (roo.py lines 184-192): `json.dump` of the
given value (the I/O-failure path re-raises and is modelled at the caller). -/
def write_settings (v : JValue) : FileContent := .json v

/-! ## Configuration merging (`config_loader.merge_configs`) -/

/-- One iteration of the inner `for group, envs in config["env"].items()` loop:
`result["env"].setdefault(group, {}).update(envs)` for dict-valued `envs`,
skipping non-dict `envs`; `.setdefault`/`.update` through a non-dict
`result["env"]` or a non-dict existing group raise. -/
def envGroupStep (acc : JValue) (gp : String × JValue) : Except Unit JValue :=
  match gp.2 with
  | .obj es =>
      match acc with
      | .obj ad =>
          match lookupD ad gp.1 with
          | some (.obj ex) => pure (JValue.obj (setKey ad gp.1 (.obj (dictUpdate ex es))))
          | some _ => Except.error ()
          | none => pure (JValue.obj (setKey ad gp.1 (.obj (dictUpdate [] es))))
      | _ => Except.error ()
  | _ => pure acc

/-- One iteration of the `merge_configs` loop for a single source `config`
against the accumulated `result` (config_loader.py lines 94-108). Non-dict
sources are skipped. When both the source and the result contain `"env"`,
only the source's `env` groups are merged (via `envGroupStep`) and the
source's other keys are never touched; otherwise `result.update(config)`.
`.items()` on a non-dict `env` raises, modelled as `Except.error`. -/
def mergeStep (result : JDict) (config : JValue) : Except Unit JDict :=
  match config with
  | .obj cf =>
      match lookupD cf "env" with
      | some cenv =>
          match lookupD result "env" with
          | some renv0 =>
              match cenv with
              | .obj groups => do
                  let renv ← groups.foldlM envGroupStep renv0
                  pure (setKey result "env" renv)
              | _ => Except.error ()
          | none => pure (dictUpdate result cf)
      | none => pure (dictUpdate result cf)
  | _ => pure result

/-- Embedding of `merge_configs` (config_loader.py lines 94-108). -/
def merge_configs (configs : List JValue) : Except Unit JDict :=
  configs.foldlM mergeStep []

/-- The dictionary behind an optional value, `{}` when absent or not a dict
(what `setdefault(group, {})` hands to `.update` in the non-raising cases). -/
def objOrEmpty : Option JValue → JDict
  | some (.obj d) => d
  | _ => []

/-! ## Environment-variable discovery -/

/-- First character of the identifier in `^\s*([a-zA-Z_][a-zA-Z0-9_]*)\s*=`. -/
def isIdentStart (c : Char) : Bool := c.isAlpha || c == '_'

/-- Subsequent identifier characters of the same pattern. -/
def isIdentChar (c : Char) : Bool := c.isAlpha || c.isDigit || c == '_'

/-- Match the stripped line against `^\s*([a-zA-Z_][a-zA-Z0-9_]*)\s*=` and
return the captured identifier (`parse_env_example`, roo.py lines 914-919). -/
def envLineVar (line : List Char) : Option (List Char) :=
  match line.dropWhile pySpace with
  | [] => none
  | c :: cs =>
      if isIdentStart c then
        match (cs.dropWhile isIdentChar).dropWhile pySpace with
        | '=' :: _ => some (c :: cs.takeWhile isIdentChar)
        | _ => none
      else none

/-- One line of `parse_env_example`: strip, skip blank and `#` comment lines,
then match the regex. -/
def envExampleLineVar (line : List Char) : Option (List Char) :=
  let l := stripL line
  if l.isEmpty then none
  else if l.headD ' ' == '#' then none
  else envLineVar l

/-- Embedding of `parse_env_example` (roo.py lines 907-923) on the file's
text content. -/
def parse_env_example (content : String) : List String :=
  ((splitOnChar '\n' content.toList).filterMap envExampleLineVar).map (fun l => String.mk l)

mutual
/-- Embedding of `_find_env_keys_recursive` (roo.py lines 930-941): collect,
from every object having a key `env` with object value, that object's keys,
and keep recursing into every value. Keys of an embedded `JValue.obj` are
strings by construction, so the source's `isinstance(key, str)` filter keeps
every key. Occurrence order differs from Python's set iteration but the
caller sorts and deduplicates. -/
def findEnvKeys : JValue → List String
  | .null => []
  | .bool _ => []
  | .num _ => []
  | .str _ => []
  | .arr xs => findEnvKeysList xs
  | .obj fs =>
      (match lookupD fs "env" with
       | some (.obj e) => e.map Prod.fst
       | _ => []) ++ findEnvKeysFields fs

/-- Recursion of `_find_env_keys_recursive` over a JSON array. -/
def findEnvKeysList : List JValue → List String
  | [] => []
  | v :: vs => findEnvKeys v ++ findEnvKeysList vs

/-- Recursion of `_find_env_keys_recursive` over the values of an object. -/
def findEnvKeysFields : List (String × JValue) → List String
  | [] => []
  | (_, v) :: fs => findEnvKeys v ++ findEnvKeysFields fs
end

/-- Lexicographic comparison of character lists by code point, as Python's
`<=` on `str` behaves. -/
def listLe : List Char → List Char → Bool
  | [], _ => true
  | _ :: _, [] => false
  | a :: as, b :: bs => if a < b then true else if a = b then listLe as bs else false

/-- Python string `<=` by code points. -/
def strLe (a b : String) : Bool := listLe a.toList b.toList

/-- Insert into a `strLe`-sorted list. -/
def insertStr (s : String) : List String → List String
  | [] => [s]
  | t :: ts => if strLe s t then s :: t :: ts else t :: insertStr s ts

/-- Insertion sort by `strLe`; on duplicate-free lists this is exactly
Python's `sorted`. -/
def sortStrs : List String → List String
  | [] => []
  | s :: ss => insertStr s (sortStrs ss)

/-- Embedding of `parse_readme_for_env_vars` (roo.py lines 944-977) at the
level of the extracted fenced ```json blocks: each entry is the
`json.loads` outcome of one block (`none` for a block that fails to parse,
or is empty after stripping, and is skipped). The collected set of keys is
returned as `sorted(list(variables))`. -/
def parse_readme_for_env_vars (blocks : List (Option JValue)) : List String :=
  sortStrs ((blocks.foldl
    (fun acc b => match b with
      | some v => acc ++ findEnvKeys v
      | none => acc) []).dedup)

/-- Provenance tag for a discovered environment-variable list
(`env_source_file` in `install_mcp`). -/
inductive EnvSource where
  | mcpJson
  | envExample
  | readme
deriving DecidableEq

/-- The variable list the `mcp.json` stage of `install_mcp` produces
(roo.py lines 1398-1407): the keys of a dict-valued `env` entry of a
dict top level, else nothing. `none` stands for a missing or unreadable
`mcp.json` (both leave the list untouched in the source). -/
def mcpJsonEnvVars (mcpData : Option JValue) : List String :=
  match mcpData with
  | some (.obj fs) =>
      match lookupD fs "env" with
      | some (.obj e) => e.map Prod.fst
      | _ => []
  | _ => []

/-- Embedding of the environment-variable discovery chain of `install_mcp`
(roo.py lines 1387-1436): `mcp.json`, then `.env.example`, then the README's
json blocks, each consulted only while no earlier source produced a
non-empty list. `envExampleFile`/`readmeBlocks` are `none` when the file
does not exist. Returns the final `required_vars_list` and
`env_source_file`. -/
def discover_env_requirements (mcpData : Option JValue) (envExampleFile : Option String)
    (readmeBlocks : Option (List (Option JValue))) : List String × Option EnvSource :=
  let r1 := mcpJsonEnvVars mcpData
  if !r1.isEmpty then (r1, some .mcpJson)
  else
    let r2 := match envExampleFile with
      | some content => parse_env_example content
      | none => r1
    if envExampleFile.isSome && !r2.isEmpty then (r2, some .envExample)
    else
      let r3 := match readmeBlocks with
        | some blocks => parse_readme_for_env_vars blocks
        | none => r2
      if readmeBlocks.isSome && !r3.isEmpty then (r3, some .readme)
      else (r3, none)

/-! ## Project-type detection (`ProjectSetup.detect_project_type`) -/

/-- One alternative package manager of the `PACKAGE_MANAGERS` table. -/
structure PMAlt where
  command : String
  detect_cmd : String
deriving DecidableEq

/-- One entry of the `PACKAGE_MANAGERS` table. -/
structure PMConfig where
  detect_file : String
  command : String
  alternatives : List PMAlt
deriving DecidableEq

/-- The static `ProjectSetup.PACKAGE_MANAGERS` table (roo.py lines 333-366),
in Python dict insertion order. -/
def PACKAGE_MANAGERS : List (String × PMConfig) :=
  [("npm", ⟨"package.json", "npm install",
      [⟨"yarn install", "yarn"⟩, ⟨"pnpm install", "pnpm"⟩]⟩),
   ("pip", ⟨"requirements.txt", "pip install -r requirements.txt",
      [⟨"pip3 install -r requirements.txt", "pip3"⟩]⟩),
   ("poetry", ⟨"pyproject.toml", "poetry install",
      [⟨"pip install -e .", "pip"⟩]⟩),
   ("cargo", ⟨"Cargo.toml", "cargo build", []⟩),
   ("go", ⟨"go.mod", "go mod download", []⟩)]

/-- The dictionary `detect_project_type` returns, with Python's
presence/absence of keys as `Option` fields. -/
structure SetupConfig where
  type : String
  command : Option String := none
  detect_file : Option String := none
  using_alternative : Bool := false
  error : Option String := none
deriving DecidableEq

/-- Python `config['command'].split()[0]`. -/
def firstWord (s : String) : String :=
  String.mk ((s.toList.dropWhile pySpace).takeWhile (fun c => !pySpace c))

/-- The error message built when no package manager resolves. -/
def pmErrorMsg (pmName primary : String) (alts : List PMAlt) : String :=
  "Required package manager " ++ pmName ++ " not found. Please install " ++ primary ++
    " or one of: " ++ String.intercalate ", " (alts.map (fun a => a.detect_cmd))

/-- The loop body of `detect_project_type` over the (ordered) table.
`files` is marker-file existence in the working directory and `cmds` is
`check_command_exists`. -/
def detectFrom (table : List (String × PMConfig)) (files cmds : String → Bool) :
    Option SetupConfig :=
  match table with
  | [] => none
  | (pmName, cfg) :: rest =>
      if files cfg.detect_file then
        let primary := firstWord cfg.command
        if cmds primary then
          some ⟨pmName, some cfg.command, some cfg.detect_file, false, none⟩
        else
          match cfg.alternatives.find? (fun alt => cmds alt.detect_cmd) with
          | some alt => some ⟨pmName, some alt.command, some cfg.detect_file, true, none⟩
          | none => some ⟨pmName, none, none, false, some (pmErrorMsg pmName primary cfg.alternatives)⟩
      else detectFrom rest files cmds

/-- Embedding of `ProjectSetup.detect_project_type` (roo.py lines 367-409). -/
def detect_project_type (files cmds : String → Bool) : Option SetupConfig :=
  detectFrom PACKAGE_MANAGERS files cmds

/-! ## The installation pipeline (`install_mcp`) -/

/-- Outcome of the build subprocess, distinguishing the Windows
`'chmod' is not recognized` stderr that roo.py treats as a warning for
npm builds. -/
inductive BuildOutcome where
  | ok
  | chmodWinNpm
  | fail
deriving DecidableEq

/-- External outcomes and filesystem contents one run of `install_mcp`
observes: each field fixes what the corresponding filesystem read,
subprocess or prompt would produce. -/
structure InstallWorld where
  /-- Marker-file existence in the working directory (`(working_dir / f).exists()`). -/
  files : String → Bool
  /-- `check_command_exists`. -/
  cmds : String → Bool
  /-- Whether `git clone` succeeds. -/
  cloneOk : Bool
  /-- Whether the npm lifecycle-script tool pre-check (`check_and_install_tool`
  over tools mentioned in `prepare`/`preinstall`/`postinstall`/`build`) passes. -/
  npmToolsOk : Bool
  /-- Whether the dependency-install subprocess succeeds. -/
  depsOk : Bool
  /-- Whether package.json has a `build` script with a `dist/`/`build/` entry
  point, so an npm build step is scheduled. -/
  npmBuildNeeded : Bool
  /-- `sys.platform == 'win32'`. -/
  isWindows : Bool
  /-- Outcome of the build subprocess when one runs. -/
  buildOutcome : BuildOutcome
  /-- What `detect_run_command` would return for the working directory. -/
  runCmd : Option (List String)
  /-- `json.loads` of `mcp.json` when present and readable. -/
  mcpData : Option JValue
  /-- Text of `.env.example` when present. -/
  envExampleFile : Option String
  /-- Parsed ```json blocks of the README when one exists. -/
  readmeBlocks : Option (List (Option JValue))
  /-- Values the user supplies at the environment-variable prompts
  (missing or empty answers are skipped by the source). -/
  envValues : List (String × String)
  /-- `datetime.utcnow().isoformat() + "Z"`. -/
  installTime : String
  /-- Content of the settings file before the install. -/
  registry : FileContent
  /-- Whether `write_settings` succeeds. -/
  writeOk : Bool

/-- What one `install_mcp` run produced: its boolean return value, whether
`write_settings` was ever invoked, and the settings file afterwards. -/
structure InstallResult where
  success : Bool
  wroteSettings : Bool
  registry : FileContent

/-- The early-exit value every failing stage returns: `install_mcp` returns
`False` and the settings file is untouched. -/
def failResult (w : InstallWorld) : InstallResult := ⟨false, false, w.registry⟩

/-- Dummy marker files `install_mcp` touches in demo mode instead of cloning
(roo.py lines 1060-1066). -/
def demoFiles : List String :=
  ["package.json", "requirements.txt", "pyproject.toml", "Cargo.toml", "go.mod", "README.md"]

/-- Marker-file existence as the detection stage sees it: demo mode touches
the `demoFiles` first. -/
def effectiveFiles (w : InstallWorld) (demo : Bool) : String → Bool :=
  fun f => if demo then demoFiles.contains f || w.files f else w.files f

/-- The `metadata.type` string chosen for the entry (roo.py lines 1365-1376). -/
def entryType (run : Option (List String)) (goBuilt : Bool) : String :=
  if goBuilt then "go-stdio"
  else
    match run with
    | some (c :: _) =>
        let lower := (c.toList.map Char.toLower)
        if containsSub "node".toList lower then "node-stdio"
        else if containsSub "python".toList lower then "python-stdio"
        else if containsSub "cargo".toList lower then "rust-stdio"
        else "stdio"
    | _ => "stdio"

/-- The `mcp_entry` dictionary built for the registry (roo.py lines
1340-1362), with paths abstracted to the repository name and subdirectory. -/
def mcpEntry (repoUrl repoName subdir : List Char) (run : Option (List String))
    (envSet : List (String × String)) (installTime : String) (goBuilt : Bool) : JValue :=
  .obj
    [("command",
        match run with
        | some (c :: _) => .str c
        | _ => .str "# TODO: Specify command"),
     ("args",
        match run with
        | some (_ :: args) => .arr (args.map .str)
        | _ => .arr []),
     ("cwd", .str (String.mk repoName ++
        (if subdir.isEmpty then "" else "/" ++ String.mk subdir))),
     ("env", .obj (envSet.map (fun p => (p.1, JValue.str p.2)))),
     ("metadata", .obj
        [("name", .str (String.mk repoName)),
         ("type", .str (entryType run goBuilt)),
         ("source", .str (String.mk repoUrl)),
         ("installTime", .str installTime),
         ("subdir", if subdir.isEmpty then .null else .str (String.mk subdir))]),
     ("disabled", .bool false),
     ("alwaysAllow", .arr []),
     ("initializationOptions", .obj []),
     ("settings", .obj [])]

/-- Sections 5-7 of `install_mcp` (roo.py lines 1318-1498): read the
settings, re-ensure `mcpServers` is an object, determine the run command
(a built Go executable takes precedence over `detect_run_command`),
discover and prompt for environment variables, insert the entry under the
project name, drop a legacy top-level `servers` list, and write — demo mode
skips the write. -/
def persistStage (w : InstallWorld) (repoUrl repoName subdir : List Char)
    (skipEnv demo goBuilt : Bool) : InstallResult :=
  let fields0 : JDict :=
    match read_settings w.registry with
    | .obj fs => fs
    | _ => []
  let fields1 :=
    match lookupD fields0 "mcpServers" with
    | some (.obj _) => fields0
    | _ => setKey fields0 "mcpServers" (.obj [])
  let disc :=
    if skipEnv then (([] : List String), (none : Option EnvSource))
    else discover_env_requirements w.mcpData w.envExampleFile w.readmeBlocks
  let envSet :=
    if disc.2.isSome then w.envValues.filter (fun p => disc.1.contains p.1) else []
  let run :=
    if goBuilt then
      some [String.mk repoName ++ "_server" ++ (if w.isWindows then ".exe" else ""), "stdio"]
    else w.runCmd
  let entry := mcpEntry repoUrl repoName subdir run envSet w.installTime goBuilt
  let servers :=
    match lookupD fields1 "mcpServers" with
    | some (.obj ms) => ms
    | _ => []
  let fields2 := setKey fields1 "mcpServers" (.obj (setKey servers (String.mk repoName) entry))
  let fields3 :=
    if (lookupD fields2 "servers").isSome then delKey fields2 "servers" else fields2
  if demo then ⟨true, false, w.registry⟩
  else if w.writeOk then ⟨true, true, write_settings (.obj fields3)⟩
  else ⟨false, true, w.registry⟩

/-- Embedding of `install_mcp` (roo.py lines 981-1564) as a function of the
external outcomes in `w`. Stages in source order: parse the reference, clean
a previous install, clone, detect the project type (aborting on a detection
error), pre-check npm lifecycle tools, install dependencies, build when
required (Go always; npm when a `dist/`/`build/` entry point has a build
script; a Windows `chmod` failure in an npm build is a warning), then
persist. Every failure before `persistStage` returns `failResult` — the
source `return False` paths and the surrounding `except` handler. The
pre-clone cleanup is not modelled as a stage outcome because
`safe_remove_directory` (roo.py lines 689-699) catches every exception
itself and only warns, so its failure cannot alter the control flow. -/
def install_mcp (w : InstallWorld) (repoInput : List Char) (skipEnv demo : Bool) :
    InstallResult :=
  match parse_repo_input repoInput with
  | .error _ => failResult w
  | .ok (repoUrl, repoName, subdir) =>
      if !demo && !w.cloneOk then failResult w
      else
        match detect_project_type (effectiveFiles w demo) w.cmds with
        | some cfg =>
            match cfg.error with
            | some _ => failResult w
            | none =>
                if cfg.type = "npm" && !w.npmToolsOk then failResult w
                else if !demo && !w.depsOk then failResult w
                else if cfg.type = "go" && !(w.cmds "go") then failResult w
                else
                  let buildNeeded := cfg.type = "go" || (cfg.type = "npm" && w.npmBuildNeeded)
                  let goBuilt := cfg.type = "go"
                  if buildNeeded && !demo then
                    match w.buildOutcome with
                    | .ok => persistStage w repoUrl repoName subdir skipEnv demo goBuilt
                    | .chmodWinNpm =>
                        if w.isWindows && cfg.type = "npm" then
                          persistStage w repoUrl repoName subdir skipEnv demo goBuilt
                        else failResult w
                    | .fail => failResult w
                  else persistStage w repoUrl repoName subdir skipEnv demo goBuilt
        | none => persistStage w repoUrl repoName subdir skipEnv demo false

/-- Specification-side characterisation of where `_find_env_keys_recursive`
finds a key: some object reachable inside the value (through object values
and array elements) has a key `env` whose value is an object carrying `k`. -/
inductive HasEnvKey : JValue → String → Prop
  | here (fs e : List (String × JValue)) (k : String)
      (hl : lookupD fs "env" = some (.obj e)) (hk : k ∈ e.map Prod.fst) :
      HasEnvKey (.obj fs) k
  | objChild (fs : List (String × JValue)) (k' : String) (v : JValue) (k : String)
      (hm : (k', v) ∈ fs) (h : HasEnvKey v k) : HasEnvKey (.obj fs) k
  | arrChild (xs : List JValue) (v : JValue) (k : String)
      (hm : v ∈ xs) (h : HasEnvKey v k) : HasEnvKey (.arr xs) k

/-! ## Helper lemmas -/

/-- Lookup distributes over append: the left association list wins. -/
theorem lookupD_append (a b : JDict) (k : String) :
    lookupD (a ++ b) k = (lookupD a k).or (lookupD b k) := by
  induction a with
  | nil => simp [lookupD]
  | cons p rest ih =>
      obtain ⟨k', v⟩ := p
      by_cases h : k' = k <;> simp [lookupD, h, ih]

/-- Setting an absent key appends it. -/
theorem setKey_of_absent (d : JDict) (k : String) (v : JValue)
    (h : lookupD d k = none) : setKey d k v = d ++ [(k, v)] := by
  induction d with
  | nil => rfl
  | cons p rest ih =>
      obtain ⟨k', v'⟩ := p
      by_cases hk : k' = k
      · simp [lookupD, hk] at h
      · simp only [lookupD, if_neg hk] at h
        simp [setKey, hk, ih h]

/-- A successful lookup is a membership. -/
theorem lookupD_mem (d : JDict) (k : String) (v : JValue)
    (h : lookupD d k = some v) : (k, v) ∈ d := by
  induction d with
  | nil => simp [lookupD] at h
  | cons p rest ih =>
      obtain ⟨k', v'⟩ := p
      by_cases hk : k' = k
      · subst hk
        simp [lookupD] at h
        subst h
        exact List.mem_cons_self _ _
      · simp [lookupD, hk] at h
        exact List.mem_cons_of_mem _ (ih h)

/-- A key outside the key list looks up to `none`. -/
theorem lookupD_eq_none_of_not_mem (d : JDict) (k : String)
    (h : k ∉ d.map Prod.fst) : lookupD d k = none := by
  induction d with
  | nil => rfl
  | cons p rest ih =>
      obtain ⟨k', v'⟩ := p
      simp only [List.map_cons, List.mem_cons] at h
      push_neg at h
      have hne : ¬k' = k := fun he => h.1 he.symm
      simp [lookupD, hne, ih h.2]

/-- `setKey` sets the key. -/
theorem lookupD_setKey_self (d : JDict) (k : String) (v : JValue) :
    lookupD (setKey d k v) k = some v := by
  induction d with
  | nil => simp [setKey, lookupD]
  | cons p rest ih =>
      obtain ⟨k', v'⟩ := p
      by_cases hk : k' = k
      · simp [setKey, hk, lookupD]
      · simp [setKey, hk, lookupD, ih]

/-- A value is an object exactly when it is some `.obj`. -/
theorem isObjV_iff (v : JValue) : isObjV v = true ↔ ∃ d, v = .obj d := by
  cases v <;> simp [isObjV]

/-- `setKey` leaves other keys alone. -/
theorem lookupD_setKey_ne (d : JDict) (k k' : String) (v : JValue)
    (h : k' ≠ k) : lookupD (setKey d k v) k' = lookupD d k' := by
  have hkk' : ¬k = k' := fun he => h he.symm
  induction d with
  | nil => simp [setKey, lookupD, hkk']
  | cons p rest ih =>
      obtain ⟨a, b⟩ := p
      by_cases ha : a = k
      · subst ha
        simp [setKey, lookupD, hkk']
      · simp [setKey, lookupD, ha, ih]

/-- Members of `setKey d k v` come from `d` or are the new binding. -/
theorem mem_setKey (d : JDict) (k : String) (v : JValue) (p : String × JValue)
    (h : p ∈ setKey d k v) : p ∈ d ∨ p = (k, v) := by
  induction d with
  | nil => right; simpa [setKey] using h
  | cons q rest ih =>
      obtain ⟨a, b⟩ := q
      by_cases ha : a = k
      · simp only [setKey, if_pos ha] at h
        rcases List.mem_cons.mp h with h' | h'
        · right; exact h'
        · left; exact List.mem_cons_of_mem _ h'
      · simp only [setKey, if_neg ha] at h
        rcases List.mem_cons.mp h with h' | h'
        · left; rw [h']; exact List.mem_cons_self _ _
        · rcases ih h' with h'' | h''
          · left; exact List.mem_cons_of_mem _ h''
          · right; exact h''

/-- Python `a.update(b)` with duplicate-free `b` (every real `dict` is):
keys of `b` win, all other keys read from `a`. This is the key-by-key
override the merge precedence is built from. -/
theorem lookupD_dictUpdate (a b : JDict) (k : String)
    (hnd : (b.map Prod.fst).Nodup) :
    lookupD (dictUpdate a b) k = (lookupD b k).or (lookupD a k) := by
  induction b generalizing a with
  | nil => simp [dictUpdate, lookupD]
  | cons p rest ih =>
      obtain ⟨k0, v0⟩ := p
      simp only [List.map_cons, List.nodup_cons] at hnd
      have hstep : dictUpdate a ((k0, v0) :: rest) = dictUpdate (setKey a k0 v0) rest := by
        simp [dictUpdate]
      rw [hstep, ih _ hnd.2]
      by_cases hk : k = k0
      · subst hk
        rw [lookupD_eq_none_of_not_mem rest k hnd.1]
        simp [lookupD, lookupD_setKey_self]
      · rw [lookupD_setKey_ne _ _ _ _ hk]
        have hne : ¬k0 = k := fun he => hk he.symm
        simp [lookupD, hne]

/-- Characterisation of the `env`-group loop of `merge_configs`: starting
from a dict `acc` whose groups are all dicts, folding the dict-valued groups
of a duplicate-free `groups` never raises, and the final `env` dict maps
each group of `groups` to the old group (or `{}`) updated with the new one,
leaving every other group as it was in `acc`. -/
theorem envGroupsFold_char (groups : JDict) (acc : JDict)
    (hnd : (groups.map Prod.fst).Nodup)
    (hg : ∀ p ∈ groups, isObjV p.2 = true)
    (hacc : ∀ p ∈ acc, isObjV p.2 = true) :
    ∃ e' : JDict,
      groups.foldlM envGroupStep (JValue.obj acc) = .ok (.obj e')
      ∧ (∀ p ∈ e', isObjV p.2 = true)
      ∧ (∀ g es, lookupD groups g = some (.obj es) →
          lookupD e' g = some (.obj (dictUpdate (objOrEmpty (lookupD acc g)) es)))
      ∧ (∀ g, lookupD groups g = none → lookupD e' g = lookupD acc g) := by
  induction groups generalizing acc with
  | nil =>
      refine ⟨acc, rfl, hacc, ?_, fun g _ => rfl⟩
      intro g es h
      simp [lookupD] at h
  | cons p rest ih =>
      obtain ⟨g0, v0⟩ := p
      have hv0 : isObjV v0 = true := hg (g0, v0) (List.mem_cons_self _ _)
      obtain ⟨es0, rfl⟩ := (isObjV_iff v0).mp hv0
      simp only [List.map_cons, List.nodup_cons] at hnd
      -- the head step produces `setKey acc g0 (old-or-{} updated with es0)`
      have hstep : envGroupStep (JValue.obj acc) (g0, .obj es0) =
          .ok (.obj (setKey acc g0 (.obj (dictUpdate (objOrEmpty (lookupD acc g0)) es0)))) := by
        unfold envGroupStep
        simp only
        match hl : lookupD acc g0 with
        | some w =>
            have hw : isObjV w = true := hacc _ (lookupD_mem _ _ _ hl)
            obtain ⟨ex, rfl⟩ := (isObjV_iff w).mp hw
            rfl
        | none => rfl
      set acc' := setKey acc g0 (.obj (dictUpdate (objOrEmpty (lookupD acc g0)) es0)) with hacc'
      have hacc'P : ∀ p ∈ acc', isObjV p.2 = true := by
        intro p hp
        rcases mem_setKey _ _ _ _ hp with h' | h'
        · exact hacc _ h'
        · rw [h']; rfl
      obtain ⟨e', he1, he2, he3, he4⟩ := ih acc' hnd.2
        (fun p hp => hg p (List.mem_cons_of_mem _ hp)) hacc'P
      refine ⟨e', ?_, he2, ?_, ?_⟩
      · rw [List.foldlM_cons, hstep]
        exact he1
      · intro g es h
        by_cases hgg : g = g0
        · subst hgg
          have : lookupD ((g, JValue.obj es0) :: rest) g = some (.obj es0) := by
            simp [lookupD]
          rw [this] at h
          obtain rfl : es0 = es := by simpa using h
          rw [he4 g (lookupD_eq_none_of_not_mem rest g hnd.1), hacc',
            lookupD_setKey_self]
        · have hne0 : ¬g0 = g := fun he => hgg he.symm
          have : lookupD ((g0, JValue.obj es0) :: rest) g = lookupD rest g := by
            simp [lookupD, hne0]
          rw [this] at h
          rw [he3 g es h, hacc', lookupD_setKey_ne _ _ _ _ hgg]
      · intro g h
        have hne : g ≠ g0 := by
          intro he
          subst he
          simp [lookupD] at h
        have hne0 : ¬g0 = g := fun he => hne he.symm
        have : lookupD ((g0, JValue.obj es0) :: rest) g = lookupD rest g := by
          simp [lookupD, hne0]
        rw [this] at h
        rw [he4 g h, hacc', lookupD_setKey_ne _ _ _ _ hne]

/-! ## Claim theorems -/

/-- C1: the spec claims `parse_repo_input "https://github.com/acme/widget:tools"`
splits off subdir `tools` and yields clone URL
`https://github.com/acme/widget.git` with project name `widget`. The code
examines only the FIRST colon of the input (`repo_input.find(':')`), which
for any `http`/`https` URL is the scheme colon, preceded by `p` or `s` — so
the subdir split never fires for URL inputs, and the subdir colon travels
into the URL path: the actual result keeps `widget:tools` intact. This
theorem evaluates the embedding at the claim's own example. -/
theorem C1_url_subdir_not_split :
    parse_repo_input "https://github.com/acme/widget:tools".toList =
      .ok ("https://github.com/acme/widget:tools.git".toList, "widget:tools".toList, []) := rfl

/-- C3 counterexample: on `{"servers": []}` (no `mcpServers`),
`read_settings` returns the original object with `mcpServers` added — the
legacy `servers` key is still present at top level — not exactly
`{"mcpServers": {}}` as claimed. -/
theorem C3_counterexample :
    read_settings (.json (.obj [("servers", .arr [])])) =
      .obj [("servers", .arr []), ("mcpServers", .obj [])]
    ∧ read_settings (.json (.obj [("servers", .arr [])])) ≠
        .obj [("mcpServers", .obj [])] := by
  refine ⟨rfl, ?_⟩
  intro h
  rw [show read_settings (.json (.obj [("servers", .arr [])])) =
        .obj [("servers", .arr []), ("mcpServers", .obj [])] from rfl] at h
  simp at h

/-- C3 (amended): for a registry file whose JSON object has a `servers` list
and no `mcpServers`, `read_settings` returns the input object with an empty
`mcpServers` object appended (and never raises — the embedding is total);
the legacy `servers` list stays at top level and is not merged into
`mcpServers`, which comes back empty. -/
theorem C3_legacy_servers_ignored (fields : JDict) (l : List JValue)
    (h1 : lookupD fields "mcpServers" = none)
    (h2 : lookupD fields "servers" = some (.arr l)) :
    read_settings (.json (.obj fields)) = .obj (fields ++ [("mcpServers", .obj [])])
    ∧ lookupD (fields ++ [("mcpServers", .obj [])]) "servers" = some (.arr l)
    ∧ lookupD (fields ++ [("mcpServers", .obj [])]) "mcpServers" = some (.obj []) := by
  have hset : setKey fields "mcpServers" (.obj []) = fields ++ [("mcpServers", .obj [])] :=
    setKey_of_absent _ _ _ h1
  refine ⟨?_, ?_, ?_⟩
  · simp [read_settings, h1, hset]
  · rw [lookupD_append, h2]; rfl
  · rw [lookupD_append, h1]; rfl

/-- C3 witness: the amended statement at the concrete file `{"servers": []}`. -/
theorem C3_legacy_servers_ignored_witness :
    read_settings (.json (.obj [("servers", .arr [])])) =
      .obj [("servers", .arr []), ("mcpServers", .obj [])]
    ∧ lookupD [("servers", JValue.arr []), ("mcpServers", JValue.obj [])] "servers" =
        some (.arr [])
    ∧ lookupD [("servers", JValue.arr []), ("mcpServers", JValue.obj [])] "mcpServers" =
        some (.obj []) :=
  C3_legacy_servers_ignored [("servers", .arr [])] [] rfl rfl

/-- C9: writing a registry whose top level is an object with an
object-valued `mcpServers` and reading it back returns the same value
(JSON-representability of the entry fields is the `FileContent.json`
abstraction of `json.dump`/`json.loads`). -/
theorem C9_registry_round_trip (fields ms : JDict)
    (h : lookupD fields "mcpServers" = some (.obj ms)) :
    read_settings (write_settings (.obj fields)) = .obj fields := by
  simp [write_settings, read_settings, h]

/-- C9 witness: round trip at a concrete one-entry registry. -/
theorem C9_registry_round_trip_witness :
    read_settings (write_settings (.obj
      [("mcpServers", .obj [("widget", .obj [("command", .str "node")])])])) =
      .obj [("mcpServers", .obj [("widget", .obj [("command", .str "node")])])] :=
  C9_registry_round_trip _ [("widget", .obj [("command", .str "node")])] rfl

/-- C4: when the `mcp.json` stage yields no variables and `.env.example`
parses to a non-empty list, discovery returns exactly the `.env.example`
variables with `.env.example` provenance, for EVERY possible README
(the README source is never consulted). -/
theorem C4_env_example_precedes_readme (mcpData : Option JValue) (c : String)
    (readmeBlocks : Option (List (Option JValue)))
    (h1 : mcpJsonEnvVars mcpData = [])
    (h2 : parse_env_example c ≠ []) :
    discover_env_requirements mcpData (some c) readmeBlocks =
      (parse_env_example c, some .envExample) := by
  simp [discover_env_requirements, h1, h2]

/-- C4 witness: no `mcp.json`, `.env.example` containing `API_KEY=`, and a
README json block declaring `OTHER`: discovery returns just `API_KEY` from
`.env.example`. -/
theorem C4_env_example_precedes_readme_witness :
    discover_env_requirements none (some "API_KEY=")
      (some [some (.obj [("env", .obj [("OTHER", .str "")])])]) =
      (["API_KEY"], some .envExample) :=
  (C4_env_example_precedes_readme none "API_KEY="
      (some [some (.obj [("env", .obj [("OTHER", .str "")])])]) rfl
      (by decide)).trans (by decide)

/-- Every config the `detect_project_type` loop can return has `error` and
`command` mutually exclusive: the three return sites carry either a command
with no error or an error with no command. -/
theorem detectFrom_error_command_exclusive (t : List (String × PMConfig))
    (files cmds : String → Bool) (cfg : SetupConfig)
    (h : detectFrom t files cmds = some cfg) :
    ¬(cfg.error.isSome = true ∧ cfg.command.isSome = true) := by
  induction t with
  | nil => simp [detectFrom] at h
  | cons p rest ih =>
      obtain ⟨pm, c⟩ := p
      simp only [detectFrom] at h
      split at h
      · split at h
        · obtain rfl := Option.some.inj h
          simp
        · split at h
          · obtain rfl := Option.some.inj h
            simp
          · obtain rfl := Option.some.inj h
            simp
      · exact ih h

/-- C8: on a directory whose only marker is `go.mod`, with the `go` tool
unresolvable (and no alternates configured for Go), `detect_project_type`
returns a config carrying a non-empty human-readable `error` and no install
command; and in every config it ever returns, `error` and `command` are
mutually exclusive. -/
theorem C8_go_unresolvable_detection_error :
    (∀ (files cmds : String → Bool) cfg,
       detect_project_type files cmds = some cfg →
       ¬(cfg.error.isSome = true ∧ cfg.command.isSome = true))
    ∧ (∀ cmds : String → Bool, cmds "go" = false →
         detect_project_type (fun f => f == "go.mod") cmds =
           some ⟨"go", none, none, false,
             some "Required package manager go not found. Please install go or one of: "⟩
         ∧ ("Required package manager go not found. Please install go or one of: " : String) ≠ "") := by
  constructor
  · intro files cmds cfg h
    exact detectFrom_error_command_exclusive _ _ _ _ h
  · intro cmds h
    constructor
    · show detectFrom PACKAGE_MANAGERS _ _ = _
      rw [PACKAGE_MANAGERS]
      rw [detectFrom]; rw [if_neg (by decide)]
      rw [detectFrom]; rw [if_neg (by decide)]
      rw [detectFrom]; rw [if_neg (by decide)]
      rw [detectFrom]; rw [if_neg (by decide)]
      rw [detectFrom]
      rw [if_pos (by decide)]
      rw [show firstWord ("go mod download") = "go" from rfl]
      simp only [h]
      rfl
    · decide

/-- C8 witness: the concrete evaluation with no command resolvable. -/
theorem C8_go_unresolvable_detection_error_witness :
    detect_project_type (fun f => f == "go.mod") (fun _ => false) =
      some ⟨"go", none, none, false,
        some "Required package manager go not found. Please install go or one of: "⟩
    ∧ ¬((some "Required package manager go not found. Please install go or one of: " :
          Option String).isSome = true ∧ (none : Option String).isSome = true) :=
  ⟨(C8_go_unresolvable_detection_error.2 (fun _ => false) rfl).1,
   C8_go_unresolvable_detection_error.1 (fun f => f == "go.mod") (fun _ => false) _
     (C8_go_unresolvable_detection_error.2 (fun _ => false) rfl).1⟩

/-- C2 counterexample: with `{"env": {}}` already merged and a later source
`{"env": {}, "x": 1}`, the result drops `"x"` entirely — the later source
does NOT override earlier ones key-by-key for keys other than `env`, because
the `env`-in-both branch of `merge_configs` touches only the `env` section. -/
theorem C2_counterexample :
    merge_configs [.obj [("env", .obj [])], .obj [("env", .obj []), ("x", .num 1)]] =
      .ok [("env", .obj [])]
    ∧ lookupD [("env", JValue.obj [])] "x" ≠ some (.num 1) := by
  refine ⟨rfl, ?_⟩
  simp [lookupD]

/-- C2 (amended): one `merge_configs` step folds a later source into the
accumulated result as follows. When either side lacks `"env"`, the source
overrides the result key-by-key (`result.update(config)`, characterised by
the first conjunct for duplicate-free sources). When BOTH carry `"env"`,
only the source's `env` section is consumed: its dict-valued groups are
deep-merged group-by-group into the result's `env` (each group's inner map
updated key-by-key, absent groups created), every key of the result other
than `env` is left unchanged, and — contrary to the claim — every non-`env`
key of the later source is ignored. -/
theorem C2_env_merge_characterisation :
    (∀ (a b : JDict) (k : String), (b.map Prod.fst).Nodup →
       lookupD (dictUpdate a b) k = (lookupD b k).or (lookupD a k))
    ∧ (∀ (a bf : JDict), (lookupD a "env" = none ∨ lookupD bf "env" = none) →
         mergeStep a (.obj bf) = .ok (dictUpdate a bf))
    ∧ (∀ (a bf ea eb : JDict),
         lookupD a "env" = some (.obj ea) →
         lookupD bf "env" = some (.obj eb) →
         (eb.map Prod.fst).Nodup →
         (∀ p ∈ eb, isObjV p.2 = true) →
         (∀ p ∈ ea, isObjV p.2 = true) →
         ∃ e' : JDict,
           mergeStep a (.obj bf) = .ok (setKey a "env" (.obj e'))
           ∧ (∀ k, k ≠ "env" → lookupD (setKey a "env" (.obj e')) k = lookupD a k)
           ∧ (∀ g es, lookupD eb g = some (.obj es) →
               lookupD e' g = some (.obj (dictUpdate (objOrEmpty (lookupD ea g)) es)))
           ∧ (∀ g, lookupD eb g = none → lookupD e' g = lookupD ea g)) := by
  refine ⟨lookupD_dictUpdate, ?_, ?_⟩
  · intro a bf h
    rcases h with h | h
    · cases hb : lookupD bf "env" with
      | none =>
          simp only [mergeStep, hb]
          rfl
      | some cenv =>
          simp only [mergeStep, hb, h]
          rfl
    · simp only [mergeStep, h]
      rfl
  · intro a bf ea eb hea heb hnd hallb halla
    obtain ⟨e', he1, _, he3, he4⟩ := envGroupsFold_char eb ea hnd hallb halla
    refine ⟨e', ?_, ?_, he3, he4⟩
    · simp only [mergeStep, heb, hea, he1]
      rfl
    · intro k hk
      exact lookupD_setKey_ne _ _ _ _ hk

/-- C2 witness: the amended characterisation at concrete dictionaries — the
earlier result holds `env.g.A = "1"`, the later source holds
`env.g.B = "2"` and a non-env key `x`; the merge deep-merges group `g` and
ignores `x`; the override conjunct is applied at a concrete update. -/
theorem C2_env_merge_characterisation_witness :
    lookupD (dictUpdate [("a", JValue.num 1)] [("a", JValue.num 2)]) "a" =
      (lookupD [("a", JValue.num 2)] "a").or (lookupD [("a", JValue.num 1)] "a")
    ∧ ∃ e' : JDict,
        mergeStep [("env", .obj [("g", .obj [("A", .str "1")])])]
            (.obj [("env", .obj [("g", .obj [("B", .str "2")])]), ("x", .num 1)]) =
          .ok (setKey [("env", .obj [("g", .obj [("A", .str "1")])])] "env" (.obj e'))
        ∧ (∀ k, k ≠ "env" →
            lookupD (setKey [("env", JValue.obj [("g", .obj [("A", .str "1")])])] "env" (.obj e')) k =
              lookupD [("env", JValue.obj [("g", .obj [("A", .str "1")])])] k)
        ∧ (∀ g es, lookupD [("g", JValue.obj [("B", .str "2")])] g = some (.obj es) →
            lookupD e' g =
              some (.obj (dictUpdate (objOrEmpty (lookupD [("g", JValue.obj [("A", .str "1")])] g)) es)))
        ∧ (∀ g, lookupD [("g", JValue.obj [("B", .str "2")])] g = none →
            lookupD e' g = lookupD [("g", JValue.obj [("A", .str "1")])] g) :=
  ⟨C2_env_merge_characterisation.1 [("a", JValue.num 1)] [("a", JValue.num 2)] "a" (by decide),
   C2_env_merge_characterisation.2.2 [("env", .obj [("g", .obj [("A", .str "1")])])]
     [("env", .obj [("g", .obj [("B", .str "2")])]), ("x", .num 1)]
     [("g", .obj [("A", .str "1")])] [("g", .obj [("B", .str "2")])]
     rfl rfl (by decide) (by decide) (by decide)⟩

mutual
/-- Keys collected by `_find_env_keys_recursive` are exactly those the
`HasEnvKey` specification describes. -/
theorem mem_findEnvKeys (v : JValue) (k : String) :
    k ∈ findEnvKeys v ↔ HasEnvKey v k := by
  cases v with
  | null => simp only [findEnvKeys]; constructor
            · intro h; cases h
            · intro h; cases h
  | bool b => simp only [findEnvKeys]; constructor
              · intro h; cases h
              · intro h; cases h
  | num n => simp only [findEnvKeys]; constructor
             · intro h; cases h
             · intro h; cases h
  | str s => simp only [findEnvKeys]; constructor
             · intro h; cases h
             · intro h; cases h
  | arr xs =>
      rw [findEnvKeys, mem_findEnvKeysList]
      constructor
      · rintro ⟨v, hv, h⟩
        exact .arrChild xs v k hv h
      · rintro (_ | _ | ⟨_, v, _, hm, h⟩)
        exact ⟨v, hm, h⟩
  | obj fs =>
      rw [findEnvKeys, List.mem_append, mem_findEnvKeysFields]
      constructor
      · rintro (h | ⟨k', v, hm, h⟩)
        · match he : lookupD fs "env" with
          | some (.obj e) => rw [he] at h; exact .here fs e k he h
          | some .null | some (.bool _) | some (.num _) | some (.str _) | some (.arr _) =>
              rw [he] at h; simp at h
          | none => rw [he] at h; simp at h
        · exact .objChild fs k' v k hm h
      · rintro (⟨_, e, _, hl, hk⟩ | ⟨_, k', v, _, hm, h⟩)
        · left; rw [hl]; exact hk
        · right; exact ⟨k', v, hm, h⟩

/-- Array case of `mem_findEnvKeys`. -/
theorem mem_findEnvKeysList (xs : List JValue) (k : String) :
    k ∈ findEnvKeysList xs ↔ ∃ v ∈ xs, HasEnvKey v k := by
  cases xs with
  | nil => simp [findEnvKeysList]
  | cons v vs =>
      rw [findEnvKeysList, List.mem_append, mem_findEnvKeys, mem_findEnvKeysList]
      simp

/-- Object-values case of `mem_findEnvKeys`. -/
theorem mem_findEnvKeysFields (fs : List (String × JValue)) (k : String) :
    k ∈ findEnvKeysFields fs ↔ ∃ k' v, (k', v) ∈ fs ∧ HasEnvKey v k := by
  cases fs with
  | nil => simp [findEnvKeysFields]
  | cons p fs' =>
      match p with
      | (k', v) =>
        rw [findEnvKeysFields, List.mem_append, mem_findEnvKeys, mem_findEnvKeysFields]
        constructor
        · rintro (h | ⟨k'', v', hm, h⟩)
          · exact ⟨k', v, List.mem_cons_self _ _, h⟩
          · exact ⟨k'', v', List.mem_cons_of_mem _ hm, h⟩
        · rintro ⟨k'', v', hm, h⟩
          rcases List.mem_cons.mp hm with he | hm'
          · left; cases he; exact h
          · right; exact ⟨k'', v', hm', h⟩
end

/-- `listLe` is total. -/
theorem listLe_total (a : List Char) : ∀ b, listLe a b = true ∨ listLe b a = true := by
  induction a with
  | nil => intro b; left; rfl
  | cons x xs ih =>
      intro b
      cases b with
      | nil => right; rfl
      | cons y ys =>
          rcases lt_trichotomy x y with h | h | h
          · left; simp [listLe, h]
          · subst h
            rcases ih ys with h' | h'
            · left; simp [listLe, h']
            · right; simp [listLe, h']
          · right; simp [listLe, h]

/-- `listLe` is transitive. -/
theorem listLe_trans (a : List Char) : ∀ b c, listLe a b = true → listLe b c = true →
    listLe a c = true := by
  induction a with
  | nil => intro b c _ _; rfl
  | cons x xs ih =>
      intro b c hab hbc
      cases b with
      | nil => simp [listLe] at hab
      | cons y ys =>
          cases c with
          | nil => simp [listLe] at hbc
          | cons z zs =>
              simp only [listLe] at hab hbc ⊢
              by_cases hxy : x < y
              · by_cases hyz : y < z
                · simp [lt_trans hxy hyz]
                · by_cases hyz' : y = z
                  · subst hyz'; simp [hxy]
                  · simp [hyz, hyz'] at hbc
              · by_cases hxy' : x = y
                · subst hxy'
                  simp only [lt_self_iff_false, if_false, if_pos rfl] at hab
                  by_cases hyz : x < z
                  · simp [hyz]
                  · by_cases hyz' : x = z
                    · subst hyz'
                      simp only [lt_self_iff_false, if_false, if_pos rfl] at hbc ⊢
                      exact ih ys zs hab hbc
                    · simp [hyz, hyz'] at hbc
                · simp [hxy, hxy'] at hab

/-- `strLe` is total. -/
theorem strLe_total (a b : String) : strLe a b = true ∨ strLe b a = true :=
  listLe_total a.toList b.toList

/-- `strLe` is transitive. -/
theorem strLe_trans (a b c : String) (h1 : strLe a b = true) (h2 : strLe b c = true) :
    strLe a c = true :=
  listLe_trans a.toList b.toList c.toList h1 h2

/-- Membership in an insertion. -/
theorem mem_insertStr (s x : String) (l : List String) :
    x ∈ insertStr s l ↔ x = s ∨ x ∈ l := by
  induction l with
  | nil => simp [insertStr]
  | cons t ts ih =>
      by_cases h : strLe s t = true
      · simp [insertStr, h]
      · simp only [insertStr, if_neg h, List.mem_cons, ih]
        tauto

/-- Insertion preserves sortedness. -/
theorem sorted_insertStr (s : String) (l : List String)
    (h : l.Sorted (fun a b => strLe a b = true)) :
    (insertStr s l).Sorted (fun a b => strLe a b = true) := by
  induction l with
  | nil => simp [insertStr]
  | cons t ts ih =>
      rw [List.sorted_cons] at h
      by_cases hst : strLe s t = true
      · rw [insertStr, if_pos hst, List.sorted_cons]
        refine ⟨?_, ?_⟩
        · intro b hb
          rcases List.mem_cons.mp hb with rfl | hb'
          · exact hst
          · exact strLe_trans s t b hst (h.1 b hb')
        · rw [List.sorted_cons]
          exact h
      · rw [insertStr, if_neg hst, List.sorted_cons]
        refine ⟨?_, ih h.2⟩
        intro b hb
        rcases (mem_insertStr s b ts).mp hb with rfl | hb'
        · rcases strLe_total b t with h' | h'
          · exact absurd h' hst
          · exact h'
        · exact h.1 b hb'

/-- The insertion sort is sorted. -/
theorem sorted_sortStrs (l : List String) :
    (sortStrs l).Sorted (fun a b => strLe a b = true) := by
  induction l with
  | nil => simp [sortStrs]
  | cons s ss ih => exact sorted_insertStr s _ ih

/-- Sorting preserves membership. -/
theorem mem_sortStrs (x : String) (l : List String) : x ∈ sortStrs l ↔ x ∈ l := by
  induction l with
  | nil => simp [sortStrs]
  | cons s ss ih => simp [sortStrs, mem_insertStr, ih]

/-- Insertion of a fresh element preserves `Nodup`. -/
theorem nodup_insertStr (s : String) (l : List String)
    (hl : l.Nodup) (hs : s ∉ l) : (insertStr s l).Nodup := by
  induction l with
  | nil => simp [insertStr]
  | cons t ts ih =>
      rw [List.nodup_cons] at hl
      by_cases h : strLe s t = true
      · rw [insertStr, if_pos h, List.nodup_cons, List.nodup_cons]
        exact ⟨hs, hl⟩
      · rw [insertStr, if_neg h, List.nodup_cons]
        refine ⟨?_, ih hl.2 (fun hm => hs (List.mem_cons_of_mem _ hm))⟩
        intro hm
        rcases (mem_insertStr s t ts).mp hm with he | hm'
        · exact hs (he ▸ List.mem_cons_self _ _)
        · exact hl.1 hm'

/-- Sorting preserves `Nodup`. -/
theorem nodup_sortStrs (l : List String) (h : l.Nodup) : (sortStrs l).Nodup := by
  induction l with
  | nil => simp [sortStrs]
  | cons s ss ih =>
      rw [List.nodup_cons] at h
      exact nodup_insertStr s _ (ih h.2) (fun hm => h.1 ((mem_sortStrs s ss).mp hm))

/-- Membership in the key collection `parse_readme_for_env_vars` folds up:
a key comes from the initial accumulator or from some successfully parsed
block. -/
theorem mem_collect_blocks (blocks : List (Option JValue)) (acc : List String) (k : String) :
    k ∈ blocks.foldl
        (fun acc b => match b with
          | some v => acc ++ findEnvKeys v
          | none => acc) acc ↔
      k ∈ acc ∨ ∃ v, some v ∈ blocks ∧ k ∈ findEnvKeys v := by
  induction blocks generalizing acc with
  | nil => simp
  | cons b bs ih =>
      cases b with
      | none =>
          rw [List.foldl_cons]
          rw [ih]
          simp
      | some v =>
          rw [List.foldl_cons, ih]
          simp only [List.mem_append, List.mem_cons, Option.some.injEq]
          constructor
          · rintro ((h | h) | ⟨v', hv', h⟩)
            · exact Or.inl h
            · exact Or.inr ⟨v, Or.inl rfl, h⟩
            · exact Or.inr ⟨v', Or.inr hv', h⟩
          · rintro (h | ⟨v', hv' | hv', h⟩)
            · exact Or.inl (Or.inl h)
            · exact Or.inl (Or.inr (hv' ▸ h))
            · exact Or.inr ⟨v', hv', h⟩

/-- A `none` (malformed or empty) block contributes nothing to the fold. -/
theorem collect_blocks_skip_none (pre post : List (Option JValue)) (acc : List String) :
    (pre ++ none :: post).foldl
        (fun acc b => match b with
          | some v => acc ++ findEnvKeys v
          | none => acc) acc =
      (pre ++ post).foldl
        (fun acc b => match b with
          | some v => acc ++ findEnvKeys v
          | none => acc) acc := by
  rw [List.foldl_append, List.foldl_append, List.foldl_cons]

/-- C5: over blocks that all parse, `parse_readme_for_env_vars` returns a
duplicate-free, `strLe`-sorted list containing exactly the keys of
object-valued `env` entries found anywhere in any block (the `HasEnvKey`
specification — recursion continues after a hit, so multiple nested `env`
objects all contribute); malformed blocks are skipped rather than fatal;
and the spec's example block yields exactly `["X", "Y"]`. -/
theorem C5_readme_env_union (blocks : List JValue) (pre post : List (Option JValue)) :
    (∀ k, k ∈ parse_readme_for_env_vars (blocks.map some) ↔ ∃ v ∈ blocks, HasEnvKey v k)
    ∧ (parse_readme_for_env_vars (blocks.map some)).Nodup
    ∧ (parse_readme_for_env_vars (blocks.map some)).Sorted (fun a b => strLe a b = true)
    ∧ parse_readme_for_env_vars (pre ++ none :: post) = parse_readme_for_env_vars (pre ++ post)
    ∧ parse_readme_for_env_vars
        [some (.obj [("a", .obj [("env", .obj [("X", .num 1)])]),
                     ("b", .obj [("env", .obj [("Y", .num 2)])])])] = ["X", "Y"] := by
  refine ⟨?_, ?_, ?_, ?_, rfl⟩
  · intro k
    unfold parse_readme_for_env_vars
    rw [mem_sortStrs, List.mem_dedup, mem_collect_blocks]
    simp only [List.mem_nil_iff, false_or, List.mem_map, Option.some.injEq]
    constructor
    · rintro ⟨v, ⟨w, hw, he⟩, h⟩
      exact ⟨w, hw, (mem_findEnvKeys w k).mp (he ▸ h)⟩
    · rintro ⟨w, hw, h⟩
      exact ⟨w, ⟨w, hw, rfl⟩, (mem_findEnvKeys w k).mpr h⟩
  · exact nodup_sortStrs _ (List.nodup_dedup _)
  · exact sorted_sortStrs _
  · unfold parse_readme_for_env_vars
    rw [collect_blocks_skip_none]

/-- `dropWhile` is the identity when no element satisfies the predicate. -/
theorem dropWhile_eq_self_of (p : Char → Bool) (l : List Char)
    (h : ∀ c ∈ l, p c = false) : l.dropWhile p = l := by
  cases l with
  | nil => rfl
  | cons c cs => simp [List.dropWhile_cons, h c (List.mem_cons_self _ _)]

/-- `strip()` is the identity on whitespace-free strings. -/
theorem stripL_eq_self (l : List Char) (h : ∀ c ∈ l, pySpace c = false) :
    stripL l = l := by
  unfold stripL
  rw [dropWhile_eq_self_of _ _ h]
  rw [dropWhile_eq_self_of _ _ (fun c hc => h c (List.mem_reverse.mp hc))]
  exact List.reverse_reverse l

/-- A matched pattern's characters all occur in the string. -/
theorem startsWithL_subset (pat l : List Char) (h : startsWithL pat l = true) :
    ∀ c ∈ pat, c ∈ l := by
  induction pat generalizing l with
  | nil => intro c hc; cases hc
  | cons p ps ih =>
      cases l with
      | nil => simp [startsWithL] at h
      | cons x xs =>
          rw [startsWithL, Bool.and_eq_true, beq_iff_eq] at h
          intro c hc
          rcases List.mem_cons.mp hc with rfl | hc'
          · rw [h.1]; exact List.mem_cons_self _ _
          · exact List.mem_cons_of_mem _ (ih xs h.2 c hc')

/-- A prefix match is impossible when the pattern has a character the
string lacks. -/
theorem startsWithL_eq_false_of_not_mem (pat l : List Char) (c : Char)
    (hcpat : c ∈ pat) (hcl : c ∉ l) : startsWithL pat l = false := by
  cases hsw : startsWithL pat l
  · rfl
  · exact absurd (startsWithL_subset pat l hsw c hcpat) hcl

/-- `takeWhile`/`dropWhile` split an append at the first failing element. -/
theorem takeWhile_dropWhile_append (p : Char → Bool) (o : List Char) (x : Char)
    (r : List Char) (ho : ∀ c ∈ o, p c = true) (hx : p x = false) :
    (o ++ x :: r).takeWhile p = o ∧ (o ++ x :: r).dropWhile p = x :: r := by
  induction o with
  | nil => simp [List.takeWhile_cons, List.dropWhile_cons, hx]
  | cons c cs ih =>
      have hc : p c = true := ho c (List.mem_cons_self _ _)
      have ih' := ih (fun c' hc' => ho c' (List.mem_cons_of_mem _ hc'))
      simp [List.takeWhile_cons, List.dropWhile_cons, hc, ih'.1, ih'.2]

/-- `.replace('.git', '')` is the identity when `.git` does not occur. -/
theorem removeDotGit_eq_self (r : List Char) (h : containsSub dotGit r = false) :
    removeDotGit r = r := by
  induction r using removeDotGit.induct with
  | case1 => rfl
  | case2 rest ih =>
      exfalso
      rw [containsSub] at h
      simp [startsWithL, dotGit] at h
  | case3 c cs hpat ih =>
      have h2 : containsSub dotGit cs = false := by
        rw [containsSub] at h
        exact (Bool.or_eq_false_iff.mp h).2
      rw [removeDotGit.eq_def]
      split
      · rename_i heq
        exact absurd heq (by simp)
      · rename_i x rest heq
        injection heq with h1 h2'
        exact (hpat rest h1 h2').elim
      · rename_i x1 c2 cs2 hpat2 heq
        injection heq with h1 h2'
        subst h1
        subst h2'
        rw [ih h2]

/-- C7: for every valid `owner/repo` shorthand — owner and repo built from
characters that are not whitespace, `/` or `:` (hence no URL scheme), both
non-empty, and repo free of the `.git` substring the code strips —
`parse_repo_input` returns exactly
`https://github.com/<owner>/<repo>.git` as the clone URL, `<repo>` as the
project name and an empty subdir; and an empty owner (`/repo`) or an empty
repo (`owner/`) is rejected with the `empty owner or repo name` error. -/
theorem C7_owner_repo_shorthand (o r : List Char)
    (ho : ∀ c ∈ o, pySpace c = false ∧ c ≠ '/' ∧ c ≠ ':')
    (hr : ∀ c ∈ r, pySpace c = false ∧ c ≠ '/' ∧ c ≠ ':')
    (ho' : o ≠ []) (hr' : r ≠ [])
    (hgit : containsSub dotGit r = false) :
    parse_repo_input (o ++ '/' :: r) =
      .ok ("https://github.com/".toList ++ o ++ '/' :: r ++ ".git".toList, r, [])
    ∧ parse_repo_input ('/' :: r) =
        .error "Failed to parse owner/repo format: Invalid owner/repo format - empty owner or repo name"
    ∧ parse_repo_input (o ++ ['/']) =
        .error "Failed to parse owner/repo format: Invalid owner/repo format - empty owner or repo name" := by
  have hslash : pySpace '/' = false ∧ '/' ≠ ':' := by decide
  have hoSpace : ∀ c ∈ o, pySpace c = false := fun c hc => (ho c hc).1
  have hrSpace : ∀ c ∈ r, pySpace c = false := fun c hc => (hr c hc).1
  have hoColon : ∀ c ∈ o, c ≠ ':' := fun c hc => (ho c hc).2.2
  have hrColon : ∀ c ∈ r, c ≠ ':' := fun c hc => (hr c hc).2.2
  have hoSlash : ∀ c ∈ o, (!(c == '/')) = true := by
    intro c hc
    simp [(ho c hc).2.1]
  refine ⟨?_, ?_, ?_⟩
  · -- the success case
    set l := o ++ '/' :: r with hl
    have hlSpace : ∀ c ∈ l, pySpace c = false := by
      intro c hc
      rcases List.mem_append.mp hc with h | h
      · exact hoSpace c h
      · rcases List.mem_cons.mp h with rfl | h'
        · exact hslash.1
        · exact hrSpace c h'
    have hlColon : ':' ∉ l := by
      intro hc
      rcases List.mem_append.mp hc with h | h
      · exact hoColon ':' h rfl
      · rcases List.mem_cons.mp h with he | h'
        · exact hslash.2 he.symm
        · exact hrColon ':' h' rfl
    have hstrip : stripL l = l := stripL_eq_self l hlSpace
    have hfind : l.findIdx? (· == ':') = none := by
      rw [List.findIdx?_eq_none_iff]
      intro c hc
      simp only [beq_eq_false_iff_ne, ne_eq]
      intro he
      exact hlColon (he ▸ hc)
    have hsplit : subdirSplit l = (l, []) := by rw [subdirSplit, hfind]
    have hhttp : startsWithL "http://".toList l = false :=
      startsWithL_eq_false_of_not_mem _ _ ':' (by decide) hlColon
    have hhttps : startsWithL "https://".toList l = false :=
      startsWithL_eq_false_of_not_mem _ _ ':' (by decide) hlColon
    have hcont : l.contains '/' = true := by
      simp [hl]
    have hsplit2 := takeWhile_dropWhile_append (fun c => !(c == '/')) o '/' r hoSlash (by decide)
    have hemp : l.isEmpty = false := by
      rw [List.isEmpty_eq_false]
      simp [hl]
    have hone : (!o.isEmpty && !r.isEmpty) = true := by
      simp [List.isEmpty_eq_false, ho', hr']
    simp only [parse_repo_input, hstrip, hsplit, hemp, Bool.false_eq_true, if_false,
      hhttp, hhttps, Bool.or_self, hcont, if_true, hsplit2.1, hsplit2.2, List.drop_succ_cons,
      List.drop_zero, List.drop_one, List.tail_cons, stripL_eq_self o hoSpace,
      stripL_eq_self r hrSpace, removeDotGit_eq_self r hgit, hone]
  · -- empty owner
    set l := '/' :: r with hl
    have hlSpace : ∀ c ∈ l, pySpace c = false := by
      intro c hc
      rcases List.mem_cons.mp hc with rfl | h'
      · exact hslash.1
      · exact hrSpace c h'
    have hlColon : ':' ∉ l := by
      intro hc
      rcases List.mem_cons.mp hc with he | h'
      · exact hslash.2 he.symm
      · exact hrColon ':' h' rfl
    have hstrip : stripL l = l := stripL_eq_self l hlSpace
    have hfind : l.findIdx? (· == ':') = none := by
      rw [List.findIdx?_eq_none_iff]
      intro c hc
      simp only [beq_eq_false_iff_ne, ne_eq]
      intro he
      exact hlColon (he ▸ hc)
    have hsplit : subdirSplit l = (l, []) := by rw [subdirSplit, hfind]
    have hhttp : startsWithL "http://".toList l = false :=
      startsWithL_eq_false_of_not_mem _ _ ':' (by decide) hlColon
    have hhttps : startsWithL "https://".toList l = false :=
      startsWithL_eq_false_of_not_mem _ _ ':' (by decide) hlColon
    have hcont : l.contains '/' = true := by
      simp [hl]
    have hemp : l.isEmpty = false := by
      rw [List.isEmpty_eq_false]
      simp [hl]
    have htake0 : List.takeWhile (fun c => !(c == '/')) l = [] := by
      simp [hl, List.takeWhile_cons]
    simp only [parse_repo_input, hstrip, hsplit, hemp, Bool.false_eq_true, if_false,
      hhttp, hhttps, Bool.or_self, hcont, if_true, htake0]
    rfl
  · -- empty repo
    set l := o ++ ['/'] with hl
    have hlSpace : ∀ c ∈ l, pySpace c = false := by
      intro c hc
      rcases List.mem_append.mp hc with h | h
      · exact hoSpace c h
      · rcases List.mem_cons.mp h with rfl | h'
        · exact hslash.1
        · cases h'
    have hlColon : ':' ∉ l := by
      intro hc
      rcases List.mem_append.mp hc with h | h
      · exact hoColon ':' h rfl
      · rcases List.mem_cons.mp h with he | h'
        · exact hslash.2 he.symm
        · cases h'
    have hstrip : stripL l = l := stripL_eq_self l hlSpace
    have hfind : l.findIdx? (· == ':') = none := by
      rw [List.findIdx?_eq_none_iff]
      intro c hc
      simp only [beq_eq_false_iff_ne, ne_eq]
      intro he
      exact hlColon (he ▸ hc)
    have hsplit : subdirSplit l = (l, []) := by rw [subdirSplit, hfind]
    have hhttp : startsWithL "http://".toList l = false :=
      startsWithL_eq_false_of_not_mem _ _ ':' (by decide) hlColon
    have hhttps : startsWithL "https://".toList l = false :=
      startsWithL_eq_false_of_not_mem _ _ ':' (by decide) hlColon
    have hcont : l.contains '/' = true := by
      simp [hl]
    have hsplit2 := takeWhile_dropWhile_append (fun c => !(c == '/')) o '/' [] hoSlash (by decide)
    have hemp : l.isEmpty = false := by
      rw [List.isEmpty_eq_false]
      simp [hl]
    simp only [parse_repo_input, hstrip, hsplit, hemp, Bool.false_eq_true, if_false,
      hhttp, hhttps, Bool.or_self, hcont, if_true, hsplit2.1, hsplit2.2]
    have hrep : (removeDotGit (stripL (List.drop 1 ['/']))).isEmpty = true := rfl
    simp [hrep]
    intro h
    rfl

/-- C7 witness: the theorem at `acme`/`widget`, covering the success case
and both empty-side rejections. -/
theorem C7_owner_repo_shorthand_witness :
    parse_repo_input ("acme".toList ++ '/' :: "widget".toList) =
      .ok ("https://github.com/".toList ++ "acme".toList ++ '/' :: "widget".toList ++
            ".git".toList, "widget".toList, [])
    ∧ parse_repo_input ('/' :: "widget".toList) =
        .error "Failed to parse owner/repo format: Invalid owner/repo format - empty owner or repo name"
    ∧ parse_repo_input ("acme".toList ++ ['/']) =
        .error "Failed to parse owner/repo format: Invalid owner/repo format - empty owner or repo name" :=
  C7_owner_repo_shorthand "acme".toList "widget".toList (by decide) (by decide)
    (by decide) (by decide) (by decide)

/-- Case analysis of one `install_mcp` run: either some stage before
`persistStage` failed and the run returned `failResult` (no write, file
untouched), or every pre-persist gate passed. -/
theorem install_mcp_cases (w : InstallWorld) (input : List Char) (skipEnv demo : Bool) :
    install_mcp w input skipEnv demo = failResult w
    ∨ ((∃ res, parse_repo_input input = .ok res)
        ∧ (!demo && !w.cloneOk) = false
        ∧ ∀ cfg, detect_project_type (effectiveFiles w demo) w.cmds = some cfg →
            (cfg.error = none
             ∧ (cfg.type = "npm" && !w.npmToolsOk) = false
             ∧ (!demo && !w.depsOk) = false
             ∧ (((cfg.type = "go" || (cfg.type = "npm" && w.npmBuildNeeded)) && !demo) = true →
                  w.buildOutcome ≠ .fail
                  ∧ (w.buildOutcome = .chmodWinNpm →
                      (w.isWindows && cfg.type = "npm") = true)))) := by
  unfold install_mcp
  match hp : parse_repo_input input with
  | .error e => left; rfl
  | .ok res =>
      obtain ⟨repoUrl, repoName, subdir⟩ := res
      by_cases h2 : (!demo && !w.cloneOk) = true
      · left
        simp [h2]
      · rw [Bool.not_eq_true] at h2
        match hdet : detect_project_type (effectiveFiles w demo) w.cmds with
        | none =>
            right
            refine ⟨⟨_, rfl⟩, h2, ?_⟩
            intro cfg h
            cases h
        | some cfg =>
            match herr : cfg.error with
            | some e =>
                left
                simp [h2, herr]
            | none =>
                by_cases h3 : (cfg.type = "npm" && !w.npmToolsOk) = true
                · left
                  simp [h2, herr, h3]
                · rw [Bool.not_eq_true] at h3
                  by_cases h4 : (!demo && !w.depsOk) = true
                  · left
                    simp [h2, herr, h3, h4]
                  · rw [Bool.not_eq_true] at h4
                    by_cases h5 : (cfg.type = "go" && !(w.cmds "go")) = true
                    · left
                      simp [h2, herr, h3, h4, h5]
                    · rw [Bool.not_eq_true] at h5
                      by_cases h6 : ((cfg.type = "go" ||
                          (cfg.type = "npm" && w.npmBuildNeeded)) && !demo) = true
                      · match hb : w.buildOutcome with
                        | .fail =>
                            left
                            simp [h2, herr, h3, h4, h5, h6, hb]
                        | .ok =>
                            right
                            refine ⟨⟨_, rfl⟩, h2, ?_⟩
                            intro cfg' h
                            obtain rfl := Option.some.inj h
                            refine ⟨herr, h3, h4, fun _ => ⟨?_, ?_⟩⟩
                            · intro hc
                              cases hc
                            · intro hc
                              cases hc
                        | .chmodWinNpm =>
                            by_cases h7 : (w.isWindows && cfg.type = "npm") = true
                            · right
                              refine ⟨⟨_, rfl⟩, h2, ?_⟩
                              intro cfg' h
                              obtain rfl := Option.some.inj h
                              refine ⟨herr, h3, h4, fun _ => ⟨?_, fun _ => h7⟩⟩
                              intro hc
                              cases hc
                            · left
                              rw [Bool.not_eq_true] at h7
                              simp [h2, herr, h3, h4, h5, h6, hb, h7]
                      · rw [Bool.not_eq_true] at h6
                        right
                        refine ⟨⟨_, rfl⟩, h2, ?_⟩
                        intro cfg' h
                        obtain rfl := Option.some.inj h
                        refine ⟨herr, h3, h4, ?_⟩
                        intro hc
                        rw [h6] at hc
                        cases hc

/-- C6: whenever any install stage prior to persisting fails — a parse
error, a clone failure, a detection error, a failed npm lifecycle-tool
pre-check, a dependency-install failure, or a build failure (including a
`chmod` failure that is not the tolerated Windows-npm case) —
`install_mcp` returns failure without ever invoking `write_settings`,
leaving the registry file content unchanged. (A failed pre-clone cleanup
is not such a stage: `safe_remove_directory` swallows its exceptions and
the install proceeds.) -/
theorem C6_failed_install_never_writes (w : InstallWorld) (input : List Char)
    (skipEnv demo : Bool)
    (h : (∃ e, parse_repo_input input = .error e)
       ∨ (demo = false ∧ w.cloneOk = false)
       ∨ (∃ cfg, detect_project_type (effectiveFiles w demo) w.cmds = some cfg ∧
            cfg.error.isSome = true)
       ∨ (∃ cfg, detect_project_type (effectiveFiles w demo) w.cmds = some cfg ∧
            cfg.type = "npm" ∧ w.npmToolsOk = false)
       ∨ (demo = false ∧ w.depsOk = false ∧
            ∃ cfg, detect_project_type (effectiveFiles w demo) w.cmds = some cfg)
       ∨ (∃ cfg, detect_project_type (effectiveFiles w demo) w.cmds = some cfg ∧
            (cfg.type = "go" ∨ (cfg.type = "npm" ∧ w.npmBuildNeeded = true)) ∧
            demo = false ∧ w.buildOutcome = .fail)
       ∨ (∃ cfg, detect_project_type (effectiveFiles w demo) w.cmds = some cfg ∧
            (cfg.type = "go" ∨ (cfg.type = "npm" ∧ w.npmBuildNeeded = true)) ∧
            demo = false ∧ w.buildOutcome = .chmodWinNpm ∧
            ¬(w.isWindows = true ∧ cfg.type = "npm"))) :
    install_mcp w input skipEnv demo = failResult w := by
  rcases install_mcp_cases w input skipEnv demo with hf | hok
  · exact hf
  · exfalso
    obtain ⟨⟨res, hres⟩, hclone, hcfg⟩ := hok
    rcases h with ⟨e, he⟩ | ⟨hd, hc⟩ | ⟨cfg, hdet, herr⟩ |
      ⟨cfg, hdet, hty, hnpm⟩ | ⟨hd, hdeps, cfg, hdet⟩ | ⟨cfg, hdet, hbn, hd, hb⟩ |
      ⟨cfg, hdet, hbn, hd, hb, hwin⟩
    · rw [hres] at he
      cases he
    · rw [hd, hc] at hclone
      simp at hclone
    · obtain ⟨he, _, _, _⟩ := hcfg cfg hdet
      rw [he] at herr
      simp at herr
    · obtain ⟨_, h3, _, _⟩ := hcfg cfg hdet
      rw [hnpm] at h3
      simp [hty] at h3
    · obtain ⟨_, _, h4, _⟩ := hcfg cfg hdet
      rw [hd, hdeps] at h4
      simp at h4
    · obtain ⟨_, _, _, h6⟩ := hcfg cfg hdet
      have hneed : ((cfg.type = "go" || (cfg.type = "npm" && w.npmBuildNeeded)) && !demo) = true := by
        rcases hbn with hgo | ⟨hnpm', hbb⟩
        · simp [hgo, hd]
        · simp [hnpm', hbb, hd]
      exact (h6 hneed).1 hb
    · obtain ⟨_, _, _, h6⟩ := hcfg cfg hdet
      have hneed : ((cfg.type = "go" || (cfg.type = "npm" && w.npmBuildNeeded)) && !demo) = true := by
        rcases hbn with hgo | ⟨hnpm', hbb⟩
        · simp [hgo, hd]
        · simp [hnpm', hbb, hd]
      have h7 := (h6 hneed).2 hb
      rw [Bool.and_eq_true] at h7
      exact hwin ⟨h7.1, of_decide_eq_true h7.2⟩

/-- A concrete world whose clone step fails: nothing else matters. -/
def c6World : InstallWorld :=
  ⟨fun _ => false, fun _ => false, false, true, true, false, false,
   .ok, none, none, none, none, [], "t", .missing, true⟩

/-- C6 witness: with a failing clone, the concrete run returns failure,
never invokes `write_settings`, and leaves the (missing) registry file as
it was. -/
theorem C6_failed_install_never_writes_witness :
    install_mcp c6World "acme/widget".toList false false =
      ⟨false, false, FileContent.missing⟩ :=
  (C6_failed_install_never_writes c6World "acme/widget".toList false false
    (Or.inr (Or.inl ⟨rfl, rfl⟩))).trans rfl
